import Mathlib

/-! Formal model of the httpcli2 HTTP client, a thin synchronous wrapper
around a native transfer engine (libcurl).  C++ strings are modelled as
lists of characters; a std::map with std::less is modelled as an
association list strictly sorted by key.  All definitions in the
HttpCli namespace are translated from src/http_client.cpp and
src/http_client.hpp; the transfer engine itself is modelled only through
its documented callback contract. -/

set_option autoImplicit false

namespace HttpCli

/-- Header names, modelled as C++ std::string contents. -/
abbrev HKey := List Char

/-- Header values. -/
abbrev HVal := List Char

/-- Character comparison used by std::less on the underlying characters. -/
def charLt (a b : Char) : Bool := decide (a < b)

/-- Lexicographic (element-wise) comparison of strings, the order of
std::less applied to std::string. -/
def keyLt : List Char → List Char → Bool
  | [], [] => false
  | [], _ :: _ => true
  | _ :: _, [] => false
  | a :: as, b :: bs => if a = b then keyLt as bs else charLt a b

/-- The header map std::map with std::less, modelled as an association
list strictly sorted by key. -/
abbrev HeaderMap := List (HKey × HVal)

/-- Ordered insert-or-assign, the effect of map[key] = value on the
sorted association list. -/
def mapInsert (k : HKey) (v : HVal) : HeaderMap → HeaderMap
  | [] => [(k, v)]
  | p :: rest =>
    if keyLt k p.1 then (k, v) :: p :: rest
    else if k = p.1 then (k, v) :: rest
    else p :: mapInsert k v rest

/-- Lookup in the association list, modelling std::map::find. -/
def mapLookup (k : HKey) : HeaderMap → Option HVal
  | [] => none
  | p :: rest => if p.1 = k then some p.2 else mapLookup k rest

/-- Strict order between map entries, comparing keys. -/
def entryLt (p q : HKey × HVal) : Prop := keyLt p.1 q.1 = true

/-! C++ std::string primitives used by the header-line parser. -/

/-- std::string::find for a single character: index of the first
occurrence, none standing for npos. -/
def string_find (s : List Char) (c : Char) : Option Nat :=
  match s with
  | [] => none
  | a :: rest => if a = c then some 0 else (string_find rest c).map (· + 1)

/-- std::string::find_first_not_of over a character set. -/
def find_first_not_of (s : List Char) (set : List Char) : Option Nat :=
  match s with
  | [] => none
  | a :: rest =>
    if set.contains a then (find_first_not_of rest set).map (· + 1) else some 0

/-- std::string::find_last_not_of over a character set. -/
def find_last_not_of (s : List Char) (set : List Char) : Option Nat :=
  match s with
  | [] => none
  | a :: rest =>
    match find_last_not_of rest set with
    | some i => some (i + 1)
    | none => if set.contains a then none else some 0

/-- Effect of s.erase(0, s.find_first_not_of(set)): removes the leading
run of characters from the set; when every character is in the set the
npos argument erases the whole string. -/
def trim_leading (set s : List Char) : List Char :=
  match find_first_not_of s set with
  | none => []
  | some i => s.drop i

/-- Effect of s.erase(s.find_last_not_of(set) + 1): truncates after the
last character outside the set; npos + 1 wraps around to 0 and erases
everything. -/
def trim_trailing (set s : List Char) : List Char :=
  match find_last_not_of s set with
  | none => []
  | some i => s.take (i + 1)

/-- The character set of the C++ literal " \t" used to trim header names
and leading value whitespace. -/
def hwsChars : List Char := [' ', '\t']

/-- The character set of the C++ literal " \t\r\n" used to trim trailing
value whitespace. -/
def vwsChars : List Char := [' ', '\t', '\r', '\n']

/-- HttpClient::Impl::headerCallback, effect of one raw header line on
the response header map (the userdata is the accumulating map; the
callback reports the whole line as consumed). -/
def headerCallback (header : List Char) (responseHeaders : HeaderMap) : HeaderMap :=
  match string_find header ':' with
  | none => responseHeaders
  | some colon_pos =>
    let key0 := header.take colon_pos
    let value0 := header.drop (colon_pos + 1)
    let key := trim_trailing hwsChars (trim_leading hwsChars key0)
    let value := trim_trailing vwsChars (trim_leading hwsChars value0)
    mapInsert key value responseHeaders

/-- The (name, value) pair a raw header line contributes, factored out of
headerCallback: none when the line has no colon. -/
def parseHeaderLine (header : List Char) : Option (HKey × HVal) :=
  match string_find header ':' with
  | none => none
  | some colon_pos =>
    let key0 := header.take colon_pos
    let value0 := header.drop (colon_pos + 1)
    let key := trim_trailing hwsChars (trim_leading hwsChars key0)
    let value := trim_trailing vwsChars (trim_leading hwsChars value0)
    some (key, value)

/-! The response accumulator callbacks and the transfer engine's
documented reaction to them. -/

/-- CURLE_OK. -/
def CURLE_OK : Nat := 0

/-- CURLE_WRITE_ERROR, the code the engine reports when the write
callback consumes fewer bytes than delivered. -/
def CURLE_WRITE_ERROR : Nat := 23

/-- HttpClient::Impl::writeCallback: appends the delivered chunk to the
body buffer and reports the chunk size as consumed; on a null userdata,
or when the append raises std::bad_alloc (allocFails), it reports 0. -/
def writeCallback (userdataNull : Bool) (chunk : List Char) (allocFails : Bool)
    (responseBody : List Char) : List Char × Nat :=
  if userdataNull then (responseBody, 0)
  else if allocFails then (responseBody, 0)
  else (responseBody ++ chunk, chunk.length)

/-- Models the transfer engine's documented write-callback contract:
each body chunk arriving on the wire is handed to writeCallback in
order, and a returned count different from the delivered size aborts the
transfer with CURLE_WRITE_ERROR.  Each chunk carries the flag saying
whether appending it hits allocation failure. -/
def feedChunks (responseBody : List Char) :
    List (List Char × Bool) → Except Nat (List Char)
  | [] => Except.ok responseBody
  | (chunk, af) :: rest =>
    let r := writeCallback false chunk af responseBody
    if r.2 = chunk.length then feedChunks r.1 rest
    else Except.error CURLE_WRITE_ERROR

/-! The transfer operation assembled by the request configurator. -/

/-- HttpFormPart::contents, the closed two-variant union of inline text
and file reference. -/
inductive FormContents where
  | text (value : List Char)
  | file (filePath : List Char) (contentType : Option (List Char))
deriving DecidableEq

/-- HttpFormPart: one named part of a multipart form. -/
structure HttpFormPart where
  name : List Char
  contents : FormContents
deriving DecidableEq

/-- One curl_mimepart as configured by build_multipart_form. -/
structure MimePart where
  partName : List Char
  inlineData : Option (List Char)
  fileData : Option (List Char)
  mimeType : Option (List Char)
deriving DecidableEq

/-- HttpClientConfig from http_client.hpp. -/
structure HttpClientConfig where
  connectTimeoutMs : Int
  requestTimeoutMs : Int
  clientCertPath : Option (List Char)
  clientKeyPath : Option (List Char)
  clientKeyPassword : Option (List Char)
deriving DecidableEq

/-- CURL_SSLVERSION_TLSv1_2. -/
def TLSv1_2 : Nat := 6

/-- The state of a one-shot CURL easy handle after configuration: every
option performRequest can set. -/
structure TransferOp where
  url : List Char
  connectTimeoutMs : Int
  requestTimeoutMs : Int
  sslMinVersion : Nat
  followLocation : Bool
  userAgent : List Char
  httpHeader : Option (List (List Char))
  postFields : Option (List Char × Nat)
  mimePost : Option (List MimePart)
  sslCert : Option (List Char)
  sslKey : Option (List Char)
  keyPasswd : Option (List Char)
deriving DecidableEq

/-- HttpClient::Impl::configure_common_options: the options set on every
request before headers and body are attached. -/
def configure_common_options (cfg : HttpClientConfig) (url : List Char) : TransferOp :=
  { url := url
    connectTimeoutMs := cfg.connectTimeoutMs
    requestTimeoutMs := cfg.requestTimeoutMs
    sslMinVersion := TLSv1_2
    followLocation := true
    userAgent := "cpp-http-client/1.0".toList
    httpHeader := none
    postFields := none
    mimePost := none
    sslCert := cfg.clientCertPath
    sslKey := cfg.clientKeyPath
    keyPasswd := cfg.clientKeyPassword }

/-- curl_slist_append: appending one string to the (null = empty) list. -/
def curl_slist_append (l : List (List Char)) (s : List Char) : List (List Char) :=
  l ++ [s]

/-- HttpClient::Impl::build_headers: one slist entry key + ": " + value
per map entry, in map iteration order. -/
def build_headers (headers : HeaderMap) : List (List Char) :=
  headers.foldl (fun acc p => curl_slist_append acc (p.1 ++ ':' :: ' ' :: p.2)) []

/-- LONG_MAX for the 64-bit platform long used by CURLOPT_POSTFIELDSIZE. -/
def LONG_MAX : Nat := 2 ^ 63 - 1

/-- Message of the oversize-body CurlException. -/
def oversizeMsg : List Char := "POST body is too large to be handled by libcurl.".toList

/-- HttpClient::Impl::configure_post_body: rejects a body longer than
LONG_MAX before the transfer, otherwise yields the CURLOPT_POSTFIELDS
and CURLOPT_POSTFIELDSIZE settings. -/
def configure_post_body (postBody : List Char) :
    Except (List Char) (List Char × Nat) :=
  if LONG_MAX < postBody.length then Except.error oversizeMsg
  else Except.ok (postBody, postBody.length)

/-- Message of the multipart-construction CurlException. -/
def mimeFailMsg : List Char := "curl_mime_init() failed.".toList

/-- HttpClient::Impl::build_multipart_form: fails when curl_mime_init
fails, otherwise builds one mime part per form part. -/
def build_multipart_form (mimeInitOk : Bool) (formParts : List HttpFormPart) :
    Except (List Char) (List MimePart) :=
  if mimeInitOk then
    Except.ok (formParts.map fun part =>
      match part.contents with
      | FormContents.text v =>
        { partName := part.name, inlineData := some v, fileData := none, mimeType := none }
      | FormContents.file p ct =>
        { partName := part.name, inlineData := none, fileData := some p, mimeType := ct })
  else Except.error mimeFailMsg

/-- What the wire delivers during one curl_easy_perform: the raw header
lines, the body chunks (each with its allocation-failure flag for the
sink append), the CURLcode the transfer itself ends with, and the
status code CURLINFO_RESPONSE_CODE would report. -/
structure WireData where
  headerLines : List (List Char)
  bodyChunks : List (List Char × Bool)
  finalRes : Nat
  responseCode : Int

/-- The engine-side environment of one call: whether curl_easy_init and
curl_mime_init succeed, the wire data each configured operation would
observe, and curl_easy_strerror. -/
structure CurlEnv where
  handleOk : Bool
  mimeInitOk : Bool
  wire : TransferOp → WireData
  strerror : Nat → List Char

/-- HttpResponse from http_client.hpp. -/
structure HttpResponse where
  statusCode : Int
  body : List Char
  headers : HeaderMap
deriving DecidableEq

/-- Models one curl_easy_perform against the registered callbacks:
header lines are folded through headerCallback, body chunks through
writeCallback (a short write aborts with CURLE_WRITE_ERROR), and an
unsuccessful transfer code is reported as the error. -/
def runPerform (wire : WireData) : Except Nat (HeaderMap × List Char × Int) :=
  let hmap := wire.headerLines.foldl (fun m l => headerCallback l m) []
  match feedChunks [] wire.bodyChunks with
  | Except.error res => Except.error res
  | Except.ok body =>
    if wire.finalRes = CURLE_OK then Except.ok (hmap, body, wire.responseCode)
    else Except.error wire.finalRes

/-- Message of the handle-creation CurlException. -/
def handleFailMsg : List Char := "Failed to create CURL easy handle.".toList

/-- Message head of the transport-failure CurlException; the engine's
curl_easy_strerror text is appended to it. -/
def performFailHead : List Char := "curl_easy_perform() failed: ".toList

/-- Step 4 and 5 of performRequest: perform the configured operation,
raise CurlException with the engine's description on failure, read the
status code back on success. -/
def finishPerform (env : CurlEnv) (op : TransferOp) :
    Except (List Char) HttpResponse :=
  match runPerform (env.wire op) with
  | Except.error res => Except.error (performFailHead ++ env.strerror res)
  | Except.ok (hmap, body, code) =>
    Except.ok { statusCode := code, body := body, headers := hmap }

/-- HttpClient::Impl::performRequest: handle creation, common options,
header list, optional multipart or raw body, then the transfer. -/
def performRequest (cfg : HttpClientConfig) (env : CurlEnv) (url : List Char)
    (postBody : Option (List Char)) (formParts : Option (List HttpFormPart))
    (headers : HeaderMap) : Except (List Char) HttpResponse :=
  if env.handleOk = false then Except.error handleFailMsg
  else
    let header_list := build_headers headers
    let op0 := configure_common_options cfg url
    let op1 := if header_list = [] then op0 else { op0 with httpHeader := some header_list }
    match formParts with
    | some parts =>
      match build_multipart_form env.mimeInitOk parts with
      | Except.error e => Except.error e
      | Except.ok mime => finishPerform env { op1 with mimePost := some mime }
    | none =>
      match postBody with
      | some body =>
        match configure_post_body body with
        | Except.error e => Except.error e
        | Except.ok pf => finishPerform env { op1 with postFields := some pf }
      | none => finishPerform env op1

/-- Steps 1 to 3 of performRequest in isolation: the configured transfer
operation a call hands to curl_easy_perform, or the configuration error
raised before any transfer. -/
def configuredOp (cfg : HttpClientConfig) (env : CurlEnv) (url : List Char)
    (postBody : Option (List Char)) (formParts : Option (List HttpFormPart))
    (headers : HeaderMap) : Except (List Char) TransferOp :=
  if env.handleOk = false then Except.error handleFailMsg
  else
    let header_list := build_headers headers
    let op0 := configure_common_options cfg url
    let op1 := if header_list = [] then op0 else { op0 with httpHeader := some header_list }
    match formParts with
    | some parts =>
      match build_multipart_form env.mimeInitOk parts with
      | Except.error e => Except.error e
      | Except.ok mime => Except.ok { op1 with mimePost := some mime }
    | none =>
      match postBody with
      | some body =>
        match configure_post_body body with
        | Except.error e => Except.error e
        | Except.ok pf => Except.ok { op1 with postFields := some pf }
      | none => Except.ok op1

/-! The global transport lifecycle guard. -/

/-- Outcome of running the static CurlGlobalInitializer constructor
before main. -/
inductive StartupOutcome where
  | proceed
  | abortProcess
deriving DecidableEq

/-- CurlGlobalInitializer's constructor: a failing curl_global_init is
reported and the process is aborted (std::abort) before main can run. -/
def curlGlobalInitCtor (res : Nat) : StartupOutcome :=
  if res ≠ CURLE_OK then StartupOutcome.abortProcess else StartupOutcome.proceed

/-- Process startup gated by the static initializer: when the
constructor aborts, the process never reaches main and serves none of
its requests; otherwise it serves all of them. -/
def runProcess {α β : Type} (initRes : Nat) (requests : List α)
    (serve : α → β) : Option (List β) :=
  match curlGlobalInitCtor initRes with
  | StartupOutcome.abortProcess => none
  | StartupOutcome.proceed => some (requests.map serve)

/-! Specification-side vocabulary, and concrete environments used to
instantiate the theorems below. -/

/-- The accumulating fold of headerCallback over the raw header lines of
one response, as wired through CURLOPT_HEADERFUNCTION. -/
def processLines (lines : List (List Char)) : HeaderMap :=
  lines.foldl (fun m l => headerCallback l m) []

/-- Specification-side: the value of the last pair in the list carrying
the given name, if any (last write wins). -/
def lastValue (k : HKey) : List (HKey × HVal) → Option HVal
  | [] => none
  | p :: ps =>
    match lastValue k ps with
    | some v => some v
    | none => if p.1 = k then some p.2 else none

/-- A caller-built std::map: the pairs inserted in order, each insert
overwriting an equal key. -/
def buildMap (ins : List (HKey × HVal)) : HeaderMap :=
  ins.foldl (fun m p => mapInsert p.1 p.2 m) []

/-- The outgoing wire format of one header map entry: name, colon,
space, value. -/
def fmtHeader (p : HKey × HVal) : List Char := p.1 ++ ':' :: ' ' :: p.2

/-- Specification-side trimming: strip leading characters satisfying
lead, then trailing characters satisfying trail. -/
def specTrim (lead trail : Char → Bool) (l : List Char) : List Char :=
  ((l.dropWhile lead).reverse.dropWhile trail).reverse

/-- Horizontal whitespace: space or tab. -/
def isHSpace (c : Char) : Bool := c == ' ' || c == '\t'

/-- Trailing value whitespace: space, tab, CR or LF. -/
def isTrailWS (c : Char) : Bool := c == ' ' || c == '\t' || c == '\r' || c == '\n'

/-- A concrete client configuration (the documented defaults). -/
def testCfg : HttpClientConfig :=
  { connectTimeoutMs := 10000
    requestTimeoutMs := 30000
    clientCertPath := none
    clientKeyPath := none
    clientKeyPassword := none }

/-- A concrete healthy engine environment: everything succeeds and the
wire delivers an empty 200 response. -/
def testEnv : CurlEnv :=
  { handleOk := true
    mimeInitOk := true
    wire := fun _ =>
      { headerLines := [], bodyChunks := [], finalRes := CURLE_OK, responseCode := 200 }
    strerror := fun _ => [] }

/-- A concrete environment whose transfer fails with CURLcode 6
(couldn't resolve host). -/
def failEnv : CurlEnv :=
  { handleOk := true
    mimeInitOk := true
    wire := fun _ =>
      { headerLines := [], bodyChunks := [], finalRes := 6, responseCode := 0 }
    strerror := fun _ => "Could not resolve hostname".toList }

/-- A concrete environment delivering one body chunk whose append hits
allocation failure. -/
def allocFailEnv : CurlEnv :=
  { handleOk := true
    mimeInitOk := true
    wire := fun _ =>
      { headerLines := [], bodyChunks := [(['x'], true)], finalRes := CURLE_OK, responseCode := 200 }
    strerror := fun _ => "Failure writing output to destination".toList }

theorem charLt_iff {a b : Char} : charLt a b = true ↔ a < b := by
  simp [charLt]

theorem charLt_trans {a b c : Char} (h1 : charLt a b = true)
    (h2 : charLt b c = true) : charLt a c = true := by
  rw [charLt_iff] at *
  exact lt_trans h1 h2

theorem charLt_ne {a b : Char} (h : charLt a b = true) : a ≠ b := by
  rw [charLt_iff] at h
  exact ne_of_lt h

theorem keyLt_irrefl (l : List Char) : keyLt l l = false := by
  induction l with
  | nil => rfl
  | cons a as ih => simp [keyLt, ih]

theorem keyLt_trans : ∀ {a b c : List Char},
    keyLt a b = true → keyLt b c = true → keyLt a c = true := by
  intro a
  induction a with
  | nil =>
    intro b c h1 h2
    cases b with
    | nil => simp [keyLt] at h1
    | cons y ys =>
      cases c with
      | nil => simp [keyLt] at h2
      | cons z zs => simp [keyLt]
  | cons x xs ih =>
    intro b c h1 h2
    cases b with
    | nil => simp [keyLt] at h1
    | cons y ys =>
      cases c with
      | nil => simp [keyLt] at h2
      | cons z zs =>
        simp only [keyLt] at h1 h2 ⊢
        by_cases hxy : x = y
        · subst hxy
          by_cases hyz : x = z
          · subst hyz
            simp only [if_pos rfl] at h1 h2 ⊢
            exact ih h1 h2
          · simp only [if_neg hyz] at h2 ⊢
            simp only [if_pos rfl] at h1
            exact h2
        · simp only [if_neg hxy] at h1
          by_cases hyz : y = z
          · subst hyz
            simp [if_neg hxy, h1]
          · simp only [if_neg hyz] at h2
            have hxz : charLt x z = true := charLt_trans h1 h2
            have hne : x ≠ z := charLt_ne hxz
            simp [if_neg hne, hxz]

theorem keyLt_total (a b : List Char) :
    keyLt a b = true ∨ a = b ∨ keyLt b a = true := by
  induction a generalizing b with
  | nil =>
    cases b with
    | nil => right; left; rfl
    | cons y ys => left; simp [keyLt]
  | cons x xs ih =>
    cases b with
    | nil => right; right; simp [keyLt]
    | cons y ys =>
      by_cases hxy : x = y
      · subst hxy
        rcases ih ys with h | h | h
        · left; simp [keyLt, h]
        · right; left; rw [h]
        · right; right; simp [keyLt, h]
      · rcases lt_trichotomy x y with h | h | h
        · left; simp [keyLt, if_neg hxy, charLt_iff, h]
        · exact absurd h hxy
        · right; right
          have : y ≠ x := fun he => hxy he.symm
          simp [keyLt, if_neg this, charLt_iff, h]

theorem mapLookup_mapInsert_self (k : HKey) (v : HVal) (m : HeaderMap) :
    mapLookup k (mapInsert k v m) = some v := by
  induction m with
  | nil => simp [mapInsert, mapLookup]
  | cons p rest ih =>
    by_cases h1 : keyLt k p.1 = true
    · simp [mapInsert, h1, mapLookup]
    · by_cases h2 : k = p.1
      · subst h2
        simp [mapInsert, keyLt_irrefl, mapLookup]
      · have hp : p.1 ≠ k := fun he => h2 he.symm
        simp [mapInsert, h1, h2, mapLookup, hp, ih]

theorem mapLookup_mapInsert_ne (k : HKey) (v : HVal) (k₀ : HKey)
    (m : HeaderMap) (h : k₀ ≠ k) :
    mapLookup k₀ (mapInsert k v m) = mapLookup k₀ m := by
  have hk : k ≠ k₀ := fun he => h he.symm
  induction m with
  | nil => simp [mapInsert, mapLookup, hk]
  | cons p rest ih =>
    by_cases h1 : keyLt k p.1 = true
    · simp [mapInsert, h1, mapLookup, hk]
    · by_cases h2 : k = p.1
      · subst h2
        simp [mapInsert, keyLt_irrefl, mapLookup, hk]
      · simp [mapInsert, h1, h2, mapLookup, ih]

theorem mem_mapInsert {q : HKey × HVal} {k : HKey} {v : HVal} {m : HeaderMap}
    (h : q ∈ mapInsert k v m) : q = (k, v) ∨ q ∈ m := by
  induction m with
  | nil =>
    simp [mapInsert] at h
    left; exact h
  | cons p rest ih =>
    by_cases h1 : keyLt k p.1 = true
    · simp only [mapInsert, if_pos h1] at h
      rcases List.mem_cons.mp h with h | h
      · left; exact h
      · right; exact h
    · by_cases h2 : k = p.1
      · simp only [mapInsert, if_neg h1, if_pos h2] at h
        rcases List.mem_cons.mp h with h | h
        · left; exact h
        · right; exact List.mem_cons_of_mem _ h
      · simp only [mapInsert, if_neg h1, if_neg h2] at h
        rcases List.mem_cons.mp h with h | h
        · right; exact h ▸ List.mem_cons_self _ _
        · rcases ih h with h' | h'
          · left; exact h'
          · right; exact List.mem_cons_of_mem _ h'

theorem pairwise_mapInsert (k : HKey) (v : HVal) {m : HeaderMap}
    (hm : m.Pairwise entryLt) : (mapInsert k v m).Pairwise entryLt := by
  induction m with
  | nil => simp [mapInsert]
  | cons p rest ih =>
    rw [List.pairwise_cons] at hm
    obtain ⟨hp, hrest⟩ := hm
    by_cases h1 : keyLt k p.1 = true
    · simp only [mapInsert, if_pos h1]
      rw [List.pairwise_cons]
      constructor
      · intro q hq
        rcases List.mem_cons.mp hq with hq | hq
        · rw [hq]; exact h1
        · exact keyLt_trans h1 (hp q hq)
      · rw [List.pairwise_cons]
        exact ⟨hp, hrest⟩
    · by_cases h2 : k = p.1
      · simp only [mapInsert, if_neg h1, if_pos h2]
        rw [List.pairwise_cons]
        refine ⟨fun q hq => ?_, hrest⟩
        have := hp q hq
        simpa [entryLt, h2] using this
      · simp only [mapInsert, if_neg h1, if_neg h2]
        rw [List.pairwise_cons]
        refine ⟨fun q hq => ?_, ih hrest⟩
        rcases mem_mapInsert hq with hq' | hq'
        · subst hq'
          rcases keyLt_total k p.1 with h | h | h
          · exact absurd h h1
          · exact absurd h h2
          · exact h
        · exact hp q hq'

theorem entryLt_ne {p q : HKey × HVal} (h : entryLt p q) : p.1 ≠ q.1 := by
  intro he
  rw [entryLt, he] at h
  rw [keyLt_irrefl] at h
  exact Bool.false_ne_true h

theorem sorted_ext : ∀ (m₁ m₂ : HeaderMap), m₁.Pairwise entryLt →
    m₂.Pairwise entryLt → (∀ p, p ∈ m₁ ↔ p ∈ m₂) → m₁ = m₂ := by
  intro m₁
  induction m₁ with
  | nil =>
    intro m₂ _ _ hmem
    cases m₂ with
    | nil => rfl
    | cons q m₂' =>
      exact absurd ((hmem q).mpr (List.mem_cons_self _ _)) (List.not_mem_nil q)
  | cons p m₁' ih =>
    intro m₂ h₁ h₂ hmem
    cases m₂ with
    | nil =>
      exact absurd ((hmem p).mp (List.mem_cons_self _ _)) (List.not_mem_nil p)
    | cons q m₂' =>
      rw [List.pairwise_cons] at h₁ h₂
      obtain ⟨hp, h₁'⟩ := h₁
      obtain ⟨hq, h₂'⟩ := h₂
      have hpq : p = q := by
        have hpm : p ∈ q :: m₂' := (hmem p).mp (List.mem_cons_self _ _)
        have hqm : q ∈ p :: m₁' := (hmem q).mpr (List.mem_cons_self _ _)
        rcases List.mem_cons.mp hpm with h | h
        · exact h
        · rcases List.mem_cons.mp hqm with h' | h'
          · exact h'.symm
          · have l1 := hq p h
            have l2 := hp q h'
            have : keyLt p.1 p.1 = true := keyLt_trans l2 l1
            rw [keyLt_irrefl] at this
            exact absurd this (by simp)
      subst hpq
      have htail : ∀ r, r ∈ m₁' ↔ r ∈ m₂' := by
        intro r
        constructor
        · intro hr
          have := (hmem r).mp (List.mem_cons_of_mem _ hr)
          rcases List.mem_cons.mp this with h | h
          · exact absurd (congrArg Prod.fst h) (entryLt_ne (hp r hr)).symm
          · exact h
        · intro hr
          have := (hmem r).mpr (List.mem_cons_of_mem _ hr)
          rcases List.mem_cons.mp this with h | h
          · exact absurd (congrArg Prod.fst h) (entryLt_ne (hq r hr)).symm
          · exact h
      rw [ih m₂' h₁' h₂' htail]

/-! Characterizations of the string primitives in terms of the standard
list operations. -/

theorem string_find_eq_none {s : List Char} {c : Char} :
    string_find s c = none ↔ c ∉ s := by
  induction s with
  | nil => simp [string_find]
  | cons a rest ih =>
    by_cases h : a = c
    · subst h
      simp [string_find]
    · have : c ≠ a := fun he => h he.symm
      simp [string_find, h, this, ih]

theorem string_find_take_drop {s : List Char} {c : Char} {i : Nat}
    (h : string_find s c = some i) :
    s.take i = s.takeWhile (fun x => x != c) ∧
    s.drop (i + 1) = (s.dropWhile (fun x => x != c)).drop 1 := by
  induction s generalizing i with
  | nil => simp [string_find] at h
  | cons a rest ih =>
    by_cases ha : a = c
    · subst ha
      simp [string_find] at h
      subst h
      simp [List.takeWhile, List.dropWhile]
    · simp only [string_find, if_neg ha, Option.map_eq_some'] at h
      obtain ⟨j, hj, hi⟩ := h
      subst hi
      have hne : (a != c) = true := bne_iff_ne.mpr ha
      obtain ⟨h1, h2⟩ := ih hj
      constructor
      · simp [List.takeWhile, hne, h1]
      · simpa [List.dropWhile, hne] using h2

theorem find_first_not_of_eq_none {s set : List Char} :
    find_first_not_of s set = none ↔ ∀ a ∈ s, a ∈ set := by
  induction s with
  | nil => simp [find_first_not_of]
  | cons a rest ih =>
    by_cases h : a ∈ set
    · simp [find_first_not_of, h, ih]
    · simp [find_first_not_of, h]

theorem trim_leading_eq_dropWhile (set s : List Char) :
    trim_leading set s = s.dropWhile set.contains := by
  induction s with
  | nil => rfl
  | cons a rest ih =>
    by_cases h : a ∈ set
    · have hstep : trim_leading set (a :: rest) = trim_leading set rest := by
        unfold trim_leading
        simp only [find_first_not_of, if_pos (by simpa using h : set.contains a = true)]
        cases hf : find_first_not_of rest set with
        | none => simp
        | some i => simp
      rw [hstep, ih, List.dropWhile_cons_of_pos (by simpa using h)]
    · have hstep : trim_leading set (a :: rest) = a :: rest := by
        unfold trim_leading
        simp [find_first_not_of, h]
      rw [hstep, List.dropWhile_cons_of_neg (by simpa using h)]

theorem find_last_not_of_eq_none {s set : List Char} :
    find_last_not_of s set = none ↔ ∀ a ∈ s, a ∈ set := by
  induction s with
  | nil => simp [find_last_not_of]
  | cons a rest ih =>
    cases hf : find_last_not_of rest set with
    | some i =>
      have hsome : find_last_not_of (a :: rest) set = some (i + 1) := by
        unfold find_last_not_of
        rw [hf]
      rw [hsome]
      constructor
      · intro h; exact absurd h (by simp)
      · intro h
        have hrest : find_last_not_of rest set = none :=
          ih.mpr (fun x hx => h x (List.mem_cons_of_mem _ hx))
        rw [hf] at hrest
        exact absurd hrest (by simp)
    | none =>
      have hstep : find_last_not_of (a :: rest) set =
          if set.contains a then none else some 0 := by
        unfold find_last_not_of
        rw [hf]
      rw [hstep]
      by_cases hc : a ∈ set
      · simp only [if_pos (by simpa using hc : set.contains a = true)]
        constructor
        · intro _ x hx
          rcases List.mem_cons.mp hx with hx | hx
          · rw [hx]; exact hc
          · exact ih.mp hf x hx
        · intro _; trivial
      · simp only [if_neg (by simpa using hc : ¬set.contains a = true)]
        constructor
        · intro h; exact absurd h (by simp)
        · intro h; exact absurd (h a (List.mem_cons_self _ _)) hc

theorem trim_trailing_eq_dropWhile (set s : List Char) :
    trim_trailing set s = (s.reverse.dropWhile set.contains).reverse := by
  induction s with
  | nil => rfl
  | cons a rest ih =>
    cases hf : find_last_not_of rest set with
    | some i =>
      have hih : rest.take (i + 1) = (rest.reverse.dropWhile set.contains).reverse := by
        unfold trim_trailing at ih
        rw [hf] at ih
        exact ih
      have hstep : trim_trailing set (a :: rest) = a :: rest.take (i + 1) := by
        unfold trim_trailing
        simp only [find_last_not_of, hf]
        rfl
      have hne : (rest.reverse.dropWhile set.contains).isEmpty = false := by
        cases hemp : (rest.reverse.dropWhile set.contains).isEmpty
        · rfl
        · exfalso
          rw [List.isEmpty_iff] at hemp
          have hall : ∀ x ∈ rest, x ∈ set := by
            intro x hx
            have := List.dropWhile_eq_nil_iff.mp hemp x (List.mem_reverse.mpr hx)
            simpa using this
          have := find_last_not_of_eq_none.mpr hall
          rw [hf] at this
          exact absurd this (by simp)
      rw [hstep, List.reverse_cons, List.dropWhile_append, hne]
      simp only [Bool.false_eq_true, if_false, List.reverse_append, List.reverse_singleton,
        List.singleton_append]
      rw [hih]
    | none =>
      have hall : ∀ x ∈ rest, x ∈ set := find_last_not_of_eq_none.mp hf
      have hdw : rest.reverse.dropWhile set.contains = [] := by
        rw [List.dropWhile_eq_nil_iff]
        intro x hx
        simpa using hall x (List.mem_reverse.mp hx)
      have hstep : find_last_not_of (a :: rest) set =
          if set.contains a then none else some 0 := by
        unfold find_last_not_of
        rw [hf]
      unfold trim_trailing
      rw [hstep, List.reverse_cons, List.dropWhile_append, hdw]
      by_cases hc : a ∈ set
      · simp [hc]
      · simp [hc]

/-- performRequest is exactly: configure, then perform. -/
theorem performRequest_eq_configure_then_perform (cfg : HttpClientConfig)
    (env : CurlEnv) (url : List Char) (postBody : Option (List Char))
    (formParts : Option (List HttpFormPart)) (headers : HeaderMap) :
    performRequest cfg env url postBody formParts headers =
      match configuredOp cfg env url postBody formParts headers with
      | Except.error e => Except.error e
      | Except.ok op => finishPerform env op := by
  cases formParts with
  | some parts =>
    unfold performRequest configuredOp
    by_cases h : env.handleOk = false
    · simp [h]
    · simp only [if_neg h]
      cases h2 : build_multipart_form env.mimeInitOk parts with
      | error e => simp only [h2]
      | ok mime => simp only [h2]
  | none =>
    cases postBody with
    | some body =>
      unfold performRequest configuredOp
      by_cases h : env.handleOk = false
      · simp [h]
      · simp only [if_neg h]
        cases h2 : configure_post_body body with
        | error e => simp only [h2]
        | ok pf => simp only [h2]
    | none =>
      unfold performRequest configuredOp
      by_cases h : env.handleOk = false
      · simp [h]
      · simp only [if_neg h]

theorem hwsChars_contains (c : Char) : hwsChars.contains c = isHSpace c := by
  by_cases h1 : c = ' ' <;> by_cases h2 : c = '\t' <;>
    simp [hwsChars, isHSpace, h1, h2]

theorem vwsChars_contains (c : Char) : vwsChars.contains c = isTrailWS c := by
  by_cases h1 : c = ' ' <;> by_cases h2 : c = '\t' <;> by_cases h3 : c = '\r' <;>
    by_cases h4 : c = '\n' <;> simp [vwsChars, isTrailWS, h1, h2, h3, h4]

theorem trims_eq_specTrim_name (x : List Char) :
    trim_trailing hwsChars (trim_leading hwsChars x) = specTrim isHSpace isHSpace x := by
  rw [trim_leading_eq_dropWhile, trim_trailing_eq_dropWhile, specTrim]
  rw [show hwsChars.contains = isHSpace from funext hwsChars_contains]

theorem trims_eq_specTrim_value (x : List Char) :
    trim_trailing vwsChars (trim_leading hwsChars x) = specTrim isHSpace isTrailWS x := by
  rw [trim_leading_eq_dropWhile, trim_trailing_eq_dropWhile, specTrim]
  rw [show hwsChars.contains = isHSpace from funext hwsChars_contains]
  rw [show vwsChars.contains = isTrailWS from funext vwsChars_contains]

theorem headerCallback_eq_parse (header : List Char) (m : HeaderMap) :
    headerCallback header m =
      match parseHeaderLine header with
      | none => m
      | some p => mapInsert p.1 p.2 m := by
  unfold headerCallback parseHeaderLine
  cases h : string_find header ':' with
  | none => simp only [h]
  | some i => simp only [h]

theorem build_headers_eq_map (m : HeaderMap) :
    build_headers m = m.map fmtHeader := by
  suffices h : ∀ acc : List (List Char),
      m.foldl (fun a p => curl_slist_append a (p.1 ++ ':' :: ' ' :: p.2)) acc =
        acc ++ m.map fmtHeader by
    simpa using h []
  induction m with
  | nil => intro acc; simp
  | cons p rest ih =>
    intro acc
    simp only [List.foldl_cons, List.map_cons]
    rw [ih]
    simp [curl_slist_append, fmtHeader]

theorem build_headers_eq_nil_iff (m : HeaderMap) :
    build_headers m = [] ↔ m = [] := by
  rw [build_headers_eq_map]
  simp

theorem feedChunks_cons_false (acc c : List Char) (rest : List (List Char × Bool)) :
    feedChunks acc ((c, false) :: rest) = feedChunks (acc ++ c) rest := by
  rw [show feedChunks acc ((c, false) :: rest) =
      if c.length = c.length then feedChunks (acc ++ c) rest
      else Except.error CURLE_WRITE_ERROR from rfl, if_pos rfl]

theorem feedChunks_map_false (pre : List (List Char)) :
    ∀ (acc : List Char) (l : List (List Char × Bool)),
      feedChunks acc (pre.map (fun c => (c, false)) ++ l) =
        feedChunks (acc ++ pre.flatten) l := by
  induction pre with
  | nil => intro acc l; simp
  | cons c cs ih =>
    intro acc l
    simp only [List.map_cons, List.cons_append]
    rw [feedChunks_cons_false, ih]
    simp

theorem feedChunks_alloc_fail (acc chunk : List Char)
    (rest : List (List Char × Bool)) (h : chunk ≠ []) :
    feedChunks acc ((chunk, true) :: rest) = Except.error CURLE_WRITE_ERROR := by
  unfold feedChunks writeCallback
  have h0 : ¬((0 : Nat) = chunk.length) := by
    intro h0
    exact h (List.eq_nil_of_length_eq_zero h0.symm)
  simp [h0]

theorem mapLookup_foldl_insert (k : HKey) (ps : List (HKey × HVal)) :
    ∀ m0 : HeaderMap,
      mapLookup k (ps.foldl (fun m p => mapInsert p.1 p.2 m) m0) =
        match lastValue k ps with
        | some v => some v
        | none => mapLookup k m0 := by
  induction ps with
  | nil => intro m0; rfl
  | cons p ps ih =>
    intro m0
    simp only [List.foldl_cons]
    rw [ih]
    show _ = match lastValue k (p :: ps) with
      | some v => some v
      | none => mapLookup k m0
    rw [show lastValue k (p :: ps) =
        match lastValue k ps with
        | some v => some v
        | none => if p.1 = k then some p.2 else none from rfl]
    cases hl : lastValue k ps with
    | some v => rfl
    | none =>
      by_cases hp : p.1 = k
      · subst hp
        rw [mapLookup_mapInsert_self]
        simp
      · rw [mapLookup_mapInsert_ne _ _ _ _ (fun he => hp he.symm)]
        simp only [if_neg hp]

theorem pairwise_foldl_insert (ps : List (HKey × HVal)) :
    ∀ m0 : HeaderMap, m0.Pairwise entryLt →
      (ps.foldl (fun m p => mapInsert p.1 p.2 m) m0).Pairwise entryLt := by
  induction ps with
  | nil => intro m0 h; exact h
  | cons p ps ih =>
    intro m0 h
    exact ih _ (pairwise_mapInsert _ _ h)

theorem processLines_eq (lines : List (List Char)) :
    processLines lines =
      (lines.filterMap parseHeaderLine).foldl (fun m p => mapInsert p.1 p.2 m) [] := by
  suffices h : ∀ m0 : HeaderMap, lines.foldl (fun m l => headerCallback l m) m0 =
      (lines.filterMap parseHeaderLine).foldl (fun m p => mapInsert p.1 p.2 m) m0 by
    exact h []
  induction lines with
  | nil => intro m0; rfl
  | cons l ls ih =>
    intro m0
    simp only [List.foldl_cons, List.filterMap_cons]
    cases hp : parseHeaderLine l with
    | none =>
      rw [headerCallback_eq_parse]
      simp only [hp]
      exact ih m0
    | some p =>
      rw [headerCallback_eq_parse]
      simp only [hp, List.foldl_cons]
      exact ih _

/-- C1: a raw header line without a colon leaves the header map
unchanged; a line with a colon is split at the first colon only, the
name is stripped of leading and trailing spaces and tabs, the value of
leading spaces and tabs and of trailing spaces, tabs, CR and LF, and
the pair is inserted into the map.  In particular "X-Foo: bar\r\n"
contributes the pair ("X-Foo", "bar") and "HTTP/1.1 200 OK\r\n"
contributes nothing. -/
theorem headerCallback_line_spec (line : List Char) (m : HeaderMap) :
    (':' ∉ line → headerCallback line m = m) ∧
    (':' ∈ line →
      headerCallback line m =
        mapInsert (specTrim isHSpace isHSpace (line.takeWhile (fun c => c != ':')))
          (specTrim isHSpace isTrailWS ((line.dropWhile (fun c => c != ':')).drop 1)) m) ∧
    headerCallback ("X-Foo: bar\r\n".toList) m =
      mapInsert ("X-Foo".toList) ("bar".toList) m ∧
    headerCallback ("HTTP/1.1 200 OK\r\n".toList) m = m := by
  refine ⟨?_, ?_, ?_, ?_⟩
  · intro h
    unfold headerCallback
    rw [string_find_eq_none.mpr h]
  · intro h
    cases hf : string_find line ':' with
    | none => exact absurd (string_find_eq_none.mp hf) (by simpa using h)
    | some i =>
      obtain ⟨h1, h2⟩ := string_find_take_drop hf
      unfold headerCallback
      rw [hf]
      simp only
      rw [h1, h2, trims_eq_specTrim_name, trims_eq_specTrim_value]
  · rfl
  · rfl

/-- C1 witness: the two concrete lines of the claim, with the
hypotheses of both implications discharged. -/
theorem headerCallback_line_spec_witness :
    ':' ∉ ("HTTP/1.1 200 OK\r\n".toList) ∧
    headerCallback ("HTTP/1.1 200 OK\r\n".toList) [] = [] ∧
    ':' ∈ ("X-Foo: bar\r\n".toList) ∧
    headerCallback ("X-Foo: bar\r\n".toList) [] =
      mapInsert (specTrim isHSpace isHSpace (("X-Foo: bar\r\n".toList).takeWhile (fun c => c != ':')))
        (specTrim isHSpace isTrailWS ((("X-Foo: bar\r\n".toList).dropWhile (fun c => c != ':')).drop 1)) [] := by
  refine ⟨by decide, ?_, by decide, ?_⟩
  · exact (headerCallback_line_spec ("HTTP/1.1 200 OK\r\n".toList) []).1 (by decide)
  · exact (headerCallback_line_spec ("X-Foo: bar\r\n".toList) []).2.1 (by decide)

/-- C9: a line whose first colon is at position 0 is not discarded: the
parser inserts the pair with empty name and trimmed remainder, e.g.
": value\r\n" inserts ("", "value") into the map. -/
theorem headerCallback_empty_name (rest : List Char) (m : HeaderMap) :
    headerCallback (':' :: rest) m =
      mapInsert [] (specTrim isHSpace isTrailWS rest) m ∧
    mapLookup [] (headerCallback (':' :: rest) m) =
      some (specTrim isHSpace isTrailWS rest) ∧
    headerCallback (": value\r\n".toList) m = mapInsert [] ("value".toList) m := by
  have hfind : string_find (':' :: rest) ':' = some 0 := by
    simp [string_find]
  have h1 : headerCallback (':' :: rest) m =
      mapInsert [] (specTrim isHSpace isTrailWS rest) m := by
    unfold headerCallback
    rw [hfind]
    simp only [List.take_zero, List.drop_succ_cons, List.drop_zero]
    rw [trims_eq_specTrim_value]
    rfl
  refine ⟨h1, ?_, ?_⟩
  · rw [h1, mapLookup_mapInsert_self]
  · rfl

/-- C5: over any sequence of raw header lines, looking up a name in the
accumulated map yields exactly the value of the last parsed line with
that trimmed name (last write wins), and the keys of the resulting map
are unique. -/
theorem headerMap_last_write_wins (lines : List (List Char)) (k : HKey) :
    mapLookup k (processLines lines) =
      lastValue k (lines.filterMap parseHeaderLine) ∧
    ((processLines lines).map Prod.fst).Nodup := by
  constructor
  · rw [processLines_eq, mapLookup_foldl_insert]
    cases lastValue k (lines.filterMap parseHeaderLine) <;> rfl
  · have hp : (processLines lines).Pairwise entryLt := by
      rw [processLines_eq]
      exact pairwise_foldl_insert _ [] List.Pairwise.nil
    have hne : (processLines lines).Pairwise (fun p q => p.1 ≠ q.1) :=
      hp.imp (fun h => entryLt_ne h)
    exact List.pairwise_map.mpr hne

/-- C7: the body sink is a homomorphism from chunk sequences to the
accumulated body: delivering any sequence of chunks (zero-length ones
included) without allocation failure appends exactly their in-order
concatenation, and zero deliveries leave the body empty. -/
theorem writeCallback_append_hom (chunks : List (List Char)) (acc : List Char) :
    feedChunks acc (chunks.map (fun c => (c, false))) =
      Except.ok (acc ++ chunks.flatten) ∧
    feedChunks [] ([] : List (List Char × Bool)) = Except.ok [] := by
  constructor
  · have h := feedChunks_map_false chunks acc []
    rw [List.append_nil] at h
    exact h
  · rfl

/-- C10: the outgoing header list is the map's entries, formatted, in
strictly increasing lexicographic key order, and it is independent of
the order the caller inserted the headers: two maps holding the same
(name, value) pairs produce identical lists. -/
theorem build_headers_sorted_deterministic (ins1 ins2 : List (HKey × HVal)) :
    (buildMap ins1).Pairwise entryLt ∧
    build_headers (buildMap ins1) = (buildMap ins1).map fmtHeader ∧
    ((∀ p, p ∈ buildMap ins1 ↔ p ∈ buildMap ins2) →
      build_headers (buildMap ins1) = build_headers (buildMap ins2)) := by
  refine ⟨pairwise_foldl_insert _ [] List.Pairwise.nil, build_headers_eq_map _, ?_⟩
  intro hmem
  rw [sorted_ext (buildMap ins1) (buildMap ins2)
    (pairwise_foldl_insert _ [] List.Pairwise.nil)
    (pairwise_foldl_insert _ [] List.Pairwise.nil) hmem]

/-- C10 witness: inserting the same two pairs in either order produces
the same outgoing header list. -/
theorem build_headers_sorted_deterministic_witness :
    build_headers (buildMap [("b".toList, "2".toList), ("a".toList, "1".toList)]) =
      build_headers (buildMap [("a".toList, "1".toList), ("b".toList, "2".toList)]) := by
  refine (build_headers_sorted_deterministic
    [("b".toList, "2".toList), ("a".toList, "1".toList)]
    [("a".toList, "1".toList), ("b".toList, "2".toList)]).2.2 ?_
  intro p
  constructor
  · intro h; exact (by decide : buildMap [("b".toList, "2".toList), ("a".toList, "1".toList)] = buildMap [("a".toList, "1".toList), ("b".toList, "2".toList)]) ▸ h
  · intro h; exact (by decide : buildMap [("a".toList, "1".toList), ("b".toList, "2".toList)] = buildMap [("b".toList, "2".toList), ("a".toList, "1".toList)]) ▸ h

/-- C6: the outgoing header list holds exactly one entry per map entry,
formatted name, colon, space, value; a successfully configured
operation carries exactly that list, and none at all when the map is
empty. -/
theorem build_headers_attach (hs : HeaderMap) (cfg : HttpClientConfig)
    (env : CurlEnv) (url : List Char) (postBody : Option (List Char))
    (formParts : Option (List HttpFormPart)) (henv : env.handleOk = true) :
    build_headers hs = hs.map fmtHeader ∧
    (∀ op, configuredOp cfg env url postBody formParts hs = Except.ok op →
      op.httpHeader = if hs = [] then none else some (build_headers hs)) ∧
    (∃ op, configuredOp cfg env url none none hs = Except.ok op) := by
  have hc : ¬(env.handleOk = false) := by rw [henv]; simp
  refine ⟨build_headers_eq_map hs, ?_, ?_⟩
  · intro op hop
    unfold configuredOp at hop
    rw [if_neg hc] at hop
    have hfin : ∀ q : TransferOp, q.httpHeader =
        (if build_headers hs = [] then configure_common_options cfg url
          else { configure_common_options cfg url with
                  httpHeader := some (build_headers hs) }).httpHeader →
        q.httpHeader = if hs = [] then none else some (build_headers hs) := by
      intro q hq
      rw [hq]
      by_cases hnil : hs = []
      · have hbn : build_headers hs = [] := (build_headers_eq_nil_iff hs).mpr hnil
        simp only [if_pos hbn, if_pos hnil]
        rfl
      · have hbn : ¬(build_headers hs = []) := fun hb =>
          hnil ((build_headers_eq_nil_iff hs).mp hb)
        simp only [if_neg hbn, if_neg hnil]
    cases formParts with
    | some parts =>
      cases hm : build_multipart_form env.mimeInitOk parts with
      | error e => simp [hm] at hop
      | ok mime =>
        simp only [hm, Except.ok.injEq] at hop
        exact hfin op (by rw [← hop])
    | none =>
      cases postBody with
      | some body =>
        cases hb : configure_post_body body with
        | error e => simp [hb] at hop
        | ok pf =>
          simp only [hb, Except.ok.injEq] at hop
          exact hfin op (by rw [← hop])
      | none =>
        simp only [Except.ok.injEq] at hop
        exact hfin op (by rw [← hop])
  · refine ⟨(if build_headers hs = [] then configure_common_options cfg url
      else { configure_common_options cfg url with
              httpHeader := some (build_headers hs) }), ?_⟩
    unfold configuredOp
    rw [if_neg hc]

/-- C6 witness: a one-entry map under the healthy environment. -/
theorem build_headers_attach_witness :
    testEnv.handleOk = true ∧
    build_headers [("a".toList, "1".toList)] =
      [("a".toList, "1".toList)].map fmtHeader ∧
    (∃ op, configuredOp testCfg testEnv [] none none [("a".toList, "1".toList)] = Except.ok op) := by
  refine ⟨rfl, ?_, ?_⟩
  · exact (build_headers_attach [("a".toList, "1".toList)] testCfg testEnv [] none none rfl).1
  · exact (build_headers_attach [("a".toList, "1".toList)] testCfg testEnv [] none none rfl).2.2

/-- C3: a raw POST body longer than LONG_MAX makes the call fail with
the oversize error before the transfer is attempted, whatever the wire
would have answered; a body that fits is attached unchanged together
with its exact length. -/
theorem post_body_size_guard (cfg : HttpClientConfig) (env : CurlEnv)
    (url : List Char) (hs : HeaderMap) (body : List Char)
    (henv : env.handleOk = true) :
    (LONG_MAX < body.length →
      performRequest cfg env url (some body) none hs = Except.error oversizeMsg) ∧
    (body.length ≤ LONG_MAX →
      ∃ op, configuredOp cfg env url (some body) none hs = Except.ok op ∧
        op.postFields = some (body, body.length)) := by
  have hc : ¬(env.handleOk = false) := by rw [henv]; simp
  constructor
  · intro hlen
    have hpb : configure_post_body body = Except.error oversizeMsg := by
      unfold configure_post_body
      rw [if_pos hlen]
    unfold performRequest
    rw [if_neg hc]
    simp only [hpb]
  · intro hlen
    have hpb : configure_post_body body = Except.ok (body, body.length) := by
      unfold configure_post_body
      rw [if_neg (by exact Nat.not_lt.mpr hlen)]
    have hconf : configuredOp cfg env url (some body) none hs =
        Except.ok { (if build_headers hs = [] then configure_common_options cfg url
            else { configure_common_options cfg url with
                    httpHeader := some (build_headers hs) }) with
          postFields := some (body, body.length) } := by
      unfold configuredOp
      rw [if_neg hc]
      simp only [hpb]
    exact ⟨_, hconf, rfl⟩

/-- C3 witness: a body of LONG_MAX + 1 spaces is rejected with the
oversize error under the healthy environment, and a one-byte body is
attached with length 1. -/
theorem post_body_size_guard_witness :
    testEnv.handleOk = true ∧
    LONG_MAX < (List.replicate (LONG_MAX + 1) ' ').length ∧
    performRequest testCfg testEnv [] (some (List.replicate (LONG_MAX + 1) ' ')) none [] =
      Except.error oversizeMsg ∧
    (∃ op, configuredOp testCfg testEnv [] (some ['a']) none [] = Except.ok op ∧
      op.postFields = some (['a'], (['a'] : List Char).length)) := by
  have hlen : LONG_MAX < (List.replicate (LONG_MAX + 1) ' ').length := by
    rw [List.length_replicate]
    exact Nat.lt_succ_self _
  refine ⟨rfl, hlen, ?_, ?_⟩
  · exact (post_body_size_guard testCfg testEnv [] []
      (List.replicate (LONG_MAX + 1) ' ') rfl).1 hlen
  · exact (post_body_size_guard testCfg testEnv [] [] ['a'] rfl).2
      (by norm_num [LONG_MAX])

/-- C4: the outcome of one call is exactly one of response or error:
when configuration succeeded and the transfer fails, the call raises the
transport error carrying the engine's strerror description, and a
returned response is exactly the wire data processed to completion,
never a partially populated value. -/
theorem performRequest_outcomes (cfg : HttpClientConfig) (env : CurlEnv)
    (url : List Char) (postBody : Option (List Char))
    (formParts : Option (List HttpFormPart)) (headers : HeaderMap) :
    (∀ op res, configuredOp cfg env url postBody formParts headers = Except.ok op →
      runPerform (env.wire op) = Except.error res →
      performRequest cfg env url postBody formParts headers =
        Except.error (performFailHead ++ env.strerror res)) ∧
    (∀ r, performRequest cfg env url postBody formParts headers = Except.ok r →
      ∃ op, configuredOp cfg env url postBody formParts headers = Except.ok op ∧
        runPerform (env.wire op) = Except.ok (r.headers, r.body, r.statusCode)) := by
  constructor
  · intro op res hconf hrun
    rw [performRequest_eq_configure_then_perform, hconf]
    simp only [finishPerform, hrun]
  · intro r hr
    rw [performRequest_eq_configure_then_perform] at hr
    cases hconf : configuredOp cfg env url postBody formParts headers with
    | error e =>
      rw [hconf] at hr
      exact absurd hr (by simp)
    | ok op =>
      rw [hconf] at hr
      cases hrun : runPerform (env.wire op) with
      | error res =>
        simp only [finishPerform, hrun] at hr
        exact absurd hr (by simp)
      | ok triple =>
        obtain ⟨hmap, body, code⟩ := triple
        simp only [finishPerform, hrun, Except.ok.injEq] at hr
        refine ⟨op, rfl, ?_⟩
        rw [← hr]
        exact hrun

/-- C4 witness: under the failing environment the call raises the
transport error carrying strerror of CURLcode 6. -/
theorem performRequest_outcomes_witness :
    performRequest testCfg failEnv [] none none [] =
      Except.error (performFailHead ++ failEnv.strerror 6) := by
  exact (performRequest_outcomes testCfg failEnv [] none none []).1
    (configure_common_options testCfg []) 6 rfl rfl

/-- C8: when an append fails with std::bad_alloc the body sink reports a
count different from the bytes delivered, the engine's documented
contract aborts the transfer with CURLE_WRITE_ERROR, and performRequest
surfaces that as a transport error built from the engine's description
rather than returning a response. -/
theorem writeCallback_alloc_fail_surfaced (cfg : HttpClientConfig)
    (env : CurlEnv) (url : List Char) (hs : HeaderMap) (acc chunk : List Char)
    (pre : List (List Char)) (rest : List (List Char × Bool))
    (hchunk : chunk ≠ []) (henv : env.handleOk = true)
    (hwire : ∀ op, (env.wire op).bodyChunks =
      pre.map (fun c => (c, false)) ++ (chunk, true) :: rest) :
    (writeCallback false chunk true acc).2 ≠ chunk.length ∧
    performRequest cfg env url none none hs =
      Except.error (performFailHead ++ env.strerror CURLE_WRITE_ERROR) := by
  have hc : ¬(env.handleOk = false) := by rw [henv]; simp
  constructor
  · have h0 : (writeCallback false chunk true acc).2 = 0 := rfl
    rw [h0]
    intro h0'
    exact hchunk (List.eq_nil_of_length_eq_zero h0'.symm)
  · have hconf : configuredOp cfg env url none none hs =
        Except.ok (if build_headers hs = [] then configure_common_options cfg url
          else { configure_common_options cfg url with
                  httpHeader := some (build_headers hs) }) := by
      unfold configuredOp
      rw [if_neg hc]
    set op := (if build_headers hs = [] then configure_common_options cfg url
      else { configure_common_options cfg url with
              httpHeader := some (build_headers hs) }) with hop
    have hfeed : feedChunks [] (env.wire op).bodyChunks =
        Except.error CURLE_WRITE_ERROR := by
      rw [hwire op]
      have h1 := feedChunks_map_false pre [] ((chunk, true) :: rest)
      rw [List.nil_append] at h1
      rw [h1]
      exact feedChunks_alloc_fail _ _ _ hchunk
    have hrun : runPerform (env.wire op) = Except.error CURLE_WRITE_ERROR := by
      unfold runPerform
      rw [hfeed]
    rw [performRequest_eq_configure_then_perform, hconf]
    simp only [finishPerform, hrun]

/-- C8 witness: the environment delivering one alloc-failing chunk makes
the call fail with the write-error transport message. -/
theorem writeCallback_alloc_fail_surfaced_witness :
    (['x'] : List Char) ≠ [] ∧
    performRequest testCfg allocFailEnv [] none none [] =
      Except.error (performFailHead ++ allocFailEnv.strerror CURLE_WRITE_ERROR) := by
  refine ⟨by simp, ?_⟩
  exact (writeCallback_alloc_fail_surfaced testCfg allocFailEnv [] [] [] ['x'] [] []
    (by simp) rfl (fun op => rfl)).2

/-- C2: when the transfer library's process-wide initialization fails,
the static initializer aborts the process at startup and no request is
ever served, rather than letting later calls fail individually; only a
successful initialization proceeds. -/
theorem global_init_failure_fail_fast (res : Nat) (h : res ≠ CURLE_OK) :
    curlGlobalInitCtor res = StartupOutcome.abortProcess ∧
    (∀ (reqs : List (List Char)) (serve : List Char → HttpResponse),
      runProcess res reqs serve = none) ∧
    curlGlobalInitCtor CURLE_OK = StartupOutcome.proceed := by
  refine ⟨?_, ?_, rfl⟩
  · unfold curlGlobalInitCtor
    rw [if_pos h]
  · intro reqs serve
    unfold runProcess curlGlobalInitCtor
    rw [if_pos h]

/-- C2 witness: a failing initialization code aborts startup and serves
nothing. -/
theorem global_init_failure_fail_fast_witness :
    (2 : Nat) ≠ CURLE_OK ∧
    curlGlobalInitCtor 2 = StartupOutcome.abortProcess ∧
    runProcess 2 ([] : List (List Char))
      (fun _ => ({ statusCode := 0, body := [], headers := [] } : HttpResponse)) = none := by
  refine ⟨by decide, (global_init_failure_fail_fast 2 (by decide)).1,
    (global_init_failure_fail_fast 2 (by decide)).2.1 [] _⟩

end HttpCli
